import Mathlib

/-!
Verification of the tacosChilis restaurant-menu application against its
design specification.

The development shallowly embeds the two components the specification
covers:

* the menu model builder `processData` (src/main.js, lines 285-338), a pure
  function from raw spreadsheet rows to a display model of categories,
  grouped items, individual items and announcements, together with the
  `escapeHtml` utility (src/main.js:199-202); and
* the offline resource cache (src/sw.js): request routing in the fetch
  listener (sw.js:52-80), the stale-while-revalidate CSV handler
  `handleCSVRequest` (sw.js:87-136), the `cacheFirstStrategy` helper
  (sw.js:144-190), and the cache-key computation of the CACHE_CSV message
  handler (sw.js:198-216).

JavaScript objects used as insertion-ordered string-keyed maps are embedded
as association lists (`lookupA` / `setA`).  Asynchronous handlers are
embedded as pure functions that take the outcome of the single network
fetch they issue as a parameter and return both their settled value and the
resulting cache / broadcast effects; "the response is returned without
awaiting the network" is expressed as the returned value being the cached
response for every possible network outcome, including a rejected fetch.
A JS string field that may be absent (`undefined`) is embedded as a
`String` with `""` for absence: every read of such a field in the embedded
code is guarded by a JS truthiness test, which identifies `undefined` and
`""`.
-/

namespace TacosChilis

/-! ## Association lists: JS objects as insertion-ordered maps -/

/-- Property read `obj[k]` on a JS object represented as an association
list in insertion order. -/
def lookupA {α : Type} : List (String × α) → String → Option α
  | [], _ => none
  | kv :: rest, k => if kv.1 = k then some kv.2 else lookupA rest k

/-- Property write `obj[k] = v` on a JS object: replaces the value in place
when the key exists, otherwise appends the key at the end (JS string keys
keep insertion order). -/
def setA {α : Type} : List (String × α) → String → α → List (String × α)
  | [], k, v => [(k, v)]
  | kv :: rest, k, v => if kv.1 = k then (k, v) :: rest else kv :: setA rest k v

/-! ## String scanning helpers (JS `split` and `includes`) -/

/-- `splitBefore sep l` is the prefix of `l` before the first occurrence of
`sep`, the whole list when `sep` does not occur: the list-level meaning of
JS `str.split(sep)[0]`. -/
def splitBefore (sep : List Char) : List Char → List Char
  | [] => []
  | c :: cs => if sep <+: (c :: cs) then [] else c :: splitBefore sep cs

/-- `listContains needle hay = true` iff `needle` occurs as a contiguous
sublist of `hay`: the list-level meaning of JS `str.includes(needle)`. -/
def listContains (needle : List Char) : List Char → Bool
  | [] => needle.isEmpty
  | c :: cs => needle.isPrefixOf (c :: cs) || listContains needle cs

/-- JS `hay.includes(needle)` on strings. -/
def containsSub (hay needle : String) : Bool :=
  listContains needle.data hay.data

/-- JS `str.toLowerCase()` (`Char.toLower` on each character), embedded on
the character list so that concrete instances evaluate inside the
kernel. -/
def toLowerStr (s : String) : String :=
  ⟨s.data.map Char.toLower⟩

/-! ## `escapeHtml` (src/main.js:199-202)

`String(str).replace(/[&<>"]/g, m => (\x7b '&': '&amp;', '<': '&lt;',
'>': '&gt;', '"': '&quot;' \x7d[m]))` replaces each occurrence of one of the
four metacharacters by its entity and leaves every other character alone.
-/

/-- The per-character replacement performed by the regex
`/[&<>"]/g` with the entity table of src/main.js:201. -/
def escapeChar (c : Char) : List Char :=
  if c = '&' then ['&', 'a', 'm', 'p', ';']
  else if c = '<' then ['&', 'l', 't', ';']
  else if c = '>' then ['&', 'g', 't', ';']
  else if c = '"' then ['&', 'q', 'u', 'o', 't', ';']
  else [c]

/-- `String.prototype.replace` with a global single-character class:
each character is rewritten independently, in order. -/
def escapeList : List Char → List Char
  | [] => []
  | c :: cs => escapeChar c ++ escapeList cs

/-- src/main.js:199-202. A falsy argument (for string inputs: the empty
string) returns `''`; otherwise every `&<>"` character is replaced by its
entity. -/
def escapeHtml (s : String) : String :=
  if s = "" then "" else ⟨escapeList s.data⟩

/-- `ampOnly l = true` iff every `'&'` in `l` is the first character of one
of the four replacement entities (`&amp;` `&lt;` `&gt;` `&quot;`) and the
characters `<`, `>`, `"` never occur outside those entities (the entities
themselves contain none).  This is the specification-side predicate for
claim C10. -/
def ampOnly : List Char → Bool
  | [] => true
  | '&' :: 'a' :: 'm' :: 'p' :: ';' :: r => ampOnly r
  | '&' :: 'l' :: 't' :: ';' :: r => ampOnly r
  | '&' :: 'g' :: 't' :: ';' :: r => ampOnly r
  | '&' :: 'q' :: 'u' :: 'o' :: 't' :: ';' :: r => ampOnly r
  | '&' :: _ => false
  | c :: rest => if c = '<' ∨ c = '>' ∨ c = '"' then false else ampOnly rest

/-! ## The menu model builder `processData` (src/main.js:285-338) -/

/-- One raw spreadsheet row as delivered by the CSV parser: field names in
whatever capitalization the spreadsheet author used, in insertion order. -/
def RawRow : Type := List (String × String)

/-- Reading field `key` (already lowercase) from the normalized object
built by `for (const key in row) item[key.toLowerCase()] = row[key]`
(src/main.js:290-293): the last row entry whose lowercased name matches
wins, a missing field reads as the falsy value (embedded `""`). -/
def getField (row : RawRow) (key : String) : String :=
  row.foldl (fun acc kv => if toLowerStr kv.1 = key then kv.2 else acc) ""

/-- The normalized record for one row after src/main.js:290-297:
lowercased field lookup plus the aliases `item.name = item.item`,
`item.group = item.groupingname`, `item.groupImage = item.groupimage`. -/
structure Item where
  category : String
  name : String
  description : String
  price : String
  group : String
  image : String
  groupImage : String
  special : String
  badge : String
  ribbonText : String
  ribonText : String
deriving DecidableEq, Repr

/-- src/main.js:290-297. -/
def normalizeRow (row : RawRow) : Item where
  category := getField row "category"
  name := getField row "item"
  description := getField row "description"
  price := getField row "price"
  group := getField row "groupingname"
  image := getField row "image"
  groupImage := getField row "groupimage"
  special := getField row "special"
  badge := getField row "badge"
  ribbonText := getField row "ribbon_text"
  ribonText := getField row "ribon_text"

/-- One member entry of a grouped item, src/main.js:326-331: name, price
and badge only (`special` is intentionally ignored for group members). -/
structure GroupEntry where
  name : String
  price : String
  badge : String
deriving DecidableEq, Repr

/-- A group of items, src/main.js:319-323: description and image are fixed
when the group is created. -/
structure Group where
  description : String
  image : String
  items : List GroupEntry
deriving DecidableEq, Repr

/-- One category bucket, src/main.js:311-314. -/
structure Bucket where
  groupedItems : List (String × Group)
  individualItems : List Item
deriving DecidableEq, Repr

/-- The value returned by `processData`, src/main.js:337. -/
structure Model where
  categories : List (String × Bucket)
  announcements : List Item
deriving DecidableEq, Repr

/-- `item.category = item.category || 'Menu'` (src/main.js:306). -/
def effCat (i : Item) : String :=
  if i.category = "" then "Menu" else i.category

/-- The entry pushed for a grouped row, src/main.js:326-331. -/
def memberEntry (i : Item) : GroupEntry :=
  ⟨i.name, i.price, i.badge⟩

/-- The grouped-item branch, src/main.js:317-331, for the already
category-defaulted record `i`: create the group with this record's
description and groupImage if absent, then push the member entry. -/
def stepGrouped (m : Model) (i : Item) : Model :=
  let bucket := (lookupA m.categories i.category).getD ⟨[], []⟩
  let g := (lookupA bucket.groupedItems i.group).getD ⟨i.description, i.groupImage, []⟩
  let g' := { g with items := g.items ++ [memberEntry i] }
  let bucket' := { bucket with groupedItems := setA bucket.groupedItems i.group g' }
  { m with categories := setA m.categories i.category bucket' }

/-- The individual-item branch, src/main.js:332-334. -/
def stepIndividual (m : Model) (i : Item) : Model :=
  let bucket := (lookupA m.categories i.category).getD ⟨[], []⟩
  let bucket' := { bucket with individualItems := bucket.individualItems ++ [i] }
  { m with categories := setA m.categories i.category bucket' }

/-- The body of the `data.forEach` callback, src/main.js:289-335.  The
bucket-creation step (src/main.js:310-315) is folded into `stepGrouped` /
`stepIndividual` via `Option.getD`: a missing bucket is created (appended
in first-seen order by `setA`) with empty contents. -/
def processRowStep (m : Model) (row : RawRow) : Model :=
  let i := normalizeRow row
  if i.category ≠ "" ∧ toLowerStr i.category = "announcement" then
    { m with announcements := m.announcements ++ [i] }
  else
    let i' := { i with category := effCat i }
    if i'.name = "" then m
    else if i'.group ≠ "" then stepGrouped m i'
    else stepIndividual m i'

/-- Folding the row callback from an intermediate model state. -/
def processFrom (m : Model) (rows : List RawRow) : Model :=
  rows.foldl processRowStep m

/-- src/main.js:285-338. -/
def processData (rows : List RawRow) : Model :=
  processFrom ⟨[], []⟩ rows

/-- Looking up the group named `g` in the bucket of category `c`. -/
def groupLookup (m : Model) (c g : String) : Option Group :=
  match lookupA m.categories c with
  | none => none
  | some b => lookupA b.groupedItems g

/-- Number of grouped member entries in a bucket. -/
def bucketGroupEntries (b : Bucket) : Nat :=
  (b.groupedItems.map (fun p => p.2.items.length)).sum

/-- Total number of grouped member entries in the model. -/
def modelGroupEntries (m : Model) : Nat :=
  (m.categories.map (fun p => bucketGroupEntries p.2)).sum

/-- Total number of individual items in the model. -/
def modelIndividuals (m : Model) : Nat :=
  (m.categories.map (fun p => p.2.individualItems.length)).sum

/-! ## The offline resource cache (src/sw.js) -/

/-- sw.js:4. -/
def CACHE_NAME : String := "tacos-chilis-menu-v1"

/-- sw.js:5. -/
def STATIC_CACHE_NAME : String := "tacos-chilis-static-v1"

/-- The tabular-data endpoint (src/main.js:189); consumers request
`SHEET_URL + "&cacheBust=" + Date.now()` (src/main.js:257). -/
def SHEET_URL : String :=
  "https://docs.google.com/spreadsheets/d/e/2PACX-1vSvCiqSXwFy0Gi34bsv32U2vzn6dzXVbzaHbm6qxA-H2EegRqTG2m7JtmtMHHAW4toNWm0Qtd4wWRhm/pub?output=csv"

/-- An HTTP response: the parts of the Fetch `Response` the worker
inspects (`status`) plus an abstract body. -/
structure Response where
  status : Nat
  body : String
deriving DecidableEq, Repr

/-- A cache namespace: a persistent key-value store keyed by request URL.
`cache.match` is `lookupA`, `cache.put` is `setA`. -/
abbrev Cache := List (String × Response)

/-- The outcome of one `fetch` call: fulfilled with a response, or
rejected (network failure). -/
inductive FetchResult where
  | ok (r : Response)
  | err
deriving DecidableEq, Repr

/-- A message posted to a client via `client.postMessage`
(sw.js:105-108). -/
structure ClientMsg where
  msgType : String
  timestamp : Nat
deriving DecidableEq, Repr

/-- `new URL(u).href` (sw.js:88): WHATWG parse-then-serialize.  On the
already-canonical absolute URL strings this embedding ranges over (such as
`SHEET_URL` plus its cache-bust parameter) serialization is the identity;
full WHATWG normalization is out of scope of the embedding. -/
def urlHref (u : String) : String := u

/-- The stripped cache key of the fetch interceptor, sw.js:88-90:
`new URL(request.url).href.split('&cacheBust=')[0]`, used as the URL of
the cache-key `Request`. -/
def handleCSVcacheKey (requestUrl : String) : String :=
  ⟨splitBefore "&cacheBust=".data (urlHref requestUrl).data⟩

/-- The stripped cache key of the CACHE_CSV message handler, sw.js:202-203:
`url.split('&cacheBust=')[0]`, used as the URL of the cache-key
`Request`. -/
def messageCacheKey (url : String) : String :=
  ⟨splitBefore "&cacheBust=".data url.data⟩

instance {ε α : Type} [DecidableEq ε] [DecidableEq α] : DecidableEq (Except ε α) := by
  intro a b
  cases a <;> cases b
  case error.error x y => exact decidable_of_iff (x = y) (by simp)
  case error.ok x y => exact isFalse (by simp)
  case ok.error x y => exact isFalse (by simp)
  case ok.ok x y => exact decidable_of_iff (x = y) (by simp)

/-- What `handleCSVRequest` produces, given the outcome of its one network
fetch: the value its returned promise settles with (`Except.error` =
rejected, `Except.ok none` = fulfilled with `undefined`, `Except.ok (some
r)` = fulfilled with a response), the dynamic cache after the background
update has run, and the messages posted to clients. -/
structure CSVOutcome where
  result : Except Unit (Option Response)
  cache : Cache
  posted : List (Nat × ClientMsg)
deriving DecidableEq, Repr

/-- sw.js:87-136, `handleCSVRequest(request, cacheName)`.  `cache` is the
content of the dynamic cache namespace, `clients` the identifiers returned
by `self.clients.matchAll()`, `net` the outcome of `fetch(request)` and
`now` the value of `Date.now()` when the notification is built.  The
background promise (sw.js:96-119) caches a status-200 response under the
stripped key and then posts `CSV_UPDATED` to every client; its `.catch`
(sw.js:116-119) logs and returns nothing, so the background promise always
fulfills — with `undefined` after a network failure.  On a cache hit the
cached response is returned (sw.js:122-127); otherwise the handler awaits
the background promise inside `try  ... catch (error) { throw error }`
(sw.js:130-135), faithfully mirrored below even though the catch branch is
unreachable. -/
def handleCSVRequest (cache : Cache) (clients : List Nat) (requestUrl : String)
    (net : FetchResult) (now : Nat) : CSVOutcome :=
  let cacheKey := handleCSVcacheKey requestUrl
  let cachedResponse := lookupA cache cacheKey
  let fetchSettled : Except Unit (Option Response) × Cache × List (Nat × ClientMsg) :=
    match net with
    | .ok r =>
      if r.status = 200 then
        (.ok (some r), setA cache cacheKey r,
          clients.map (fun c => (c, ⟨"CSV_UPDATED", now⟩)))
      else (.ok (some r), cache, [])
    | .err => (.ok none, cache, [])
  match cachedResponse with
  | some c => { result := .ok (some c), cache := fetchSettled.2.1, posted := fetchSettled.2.2 }
  | none =>
    { result := match fetchSettled.1 with
        | .ok v => .ok v
        | .error e => .error e
      cache := fetchSettled.2.1
      posted := fetchSettled.2.2 }

/-- The fields of a Fetch `Request` (and its parsed URL) that the fetch
listener inspects. -/
structure RequestInfo where
  method : String
  origin : String
  hostname : String
  pathname : String
  destination : String
  url : String
  mode : String
deriving DecidableEq, Repr

/-- How the fetch listener resolves a request: not intercepted, the CSV
handler, or the cache-first strategy with a given cache namespace. -/
inductive Routing where
  | passThrough
  | csvHandler (cacheName : String)
  | cacheFirst (cacheName : String)
deriving DecidableEq, Repr

/-- The fetch event listener, sw.js:52-80: non-GET requests pass through;
cross-origin requests go to the CSV handler when the hostname includes
`docs.google.com` and the path includes `/pub`, to cache-first with the
dynamic cache when the destination is `image`, and otherwise pass through;
all same-origin requests go to cache-first with the static cache. -/
def fetchRoute (selfOrigin : String) (req : RequestInfo) : Routing :=
  if req.method ≠ "GET" then .passThrough
  else if req.origin ≠ selfOrigin then
    if containsSub req.hostname "docs.google.com" && containsSub req.pathname "/pub" then
      .csvHandler CACHE_NAME
    else if req.destination = "image" then .cacheFirst CACHE_NAME
    else .passThrough
  else .cacheFirst STATIC_CACHE_NAME

/-- The synthetic offline response, sw.js:182-188. -/
def offline503 : Response :=
  ⟨503, "Offline - Content not available"⟩

/-- What `cacheFirstStrategy` produces: the returned response and the
state of its cache namespace afterwards. -/
structure CFOutcome where
  response : Response
  cache : Cache
deriving DecidableEq, Repr

/-- sw.js:144-190, `cacheFirstStrategy(request, cacheName)`.  `cache` is
the content of the strategy's cache namespace, `staticCache` the content
of the static namespace consulted by the navigation fallback, `net` the
outcome of `fetch(request)`.  A cached response is returned as is; on a
miss the network response is returned and, when its status is 200, stored
under the request URL (the `cache.put` failure is swallowed, sw.js:163-165,
so the write is modelled as succeeding); a rejected fetch falls back to the
cached `/index.html` for navigation requests and to the synthetic 503
response otherwise (sw.js:169-189). -/
def cacheFirstStrategy (cache : Cache) (staticCache : Cache) (req : RequestInfo)
    (net : FetchResult) : CFOutcome :=
  match lookupA cache req.url with
  | some c => ⟨c, cache⟩
  | none =>
    match net with
    | .ok r => if r.status = 200 then ⟨r, setA cache req.url r⟩ else ⟨r, cache⟩
    | .err =>
      if req.mode = "navigate" then
        match lookupA staticCache "/index.html" with
        | some idx => ⟨idx, cache⟩
        | none => ⟨offline503, cache⟩
      else ⟨offline503, cache⟩

/-! ## Concrete inputs used by witnesses and counterexamples -/

/-- A row whose category is "Announcement" and whose name field is
missing. -/
def annRowNoName : RawRow := [("Category", "Announcement")]

/-- First grouped row of the specification's end-to-end example. -/
def rowAsada : RawRow :=
  [("Category", "Tacos"), ("Item", "Asada"), ("GroupingName", "Street Tacos"),
   ("GroupImage", "a.jpg"), ("Description", "Served with onions")]

/-- Second grouped row of the specification's end-to-end example. -/
def rowPastor : RawRow :=
  [("Category", "Tacos"), ("Item", "Pastor"), ("GroupingName", "Street Tacos"),
   ("Price", "3")]

/-- A row with a non-announcement category and an empty name field. -/
def noNameRow : RawRow := [("Category", "Tacos"), ("Item", "")]

/-- A same-origin GET request classified as an image. -/
def sameOriginImageReq : RequestInfo :=
  { method := "GET"
    origin := "https://tacoschilis.example"
    hostname := "tacoschilis.example"
    pathname := "/img/logo.jpeg"
    destination := "image"
    url := "https://tacoschilis.example/img/logo.jpeg"
    mode := "no-cors" }

/-- A cross-origin GET request classified as an image. -/
def crossOriginImageReq : RequestInfo :=
  { method := "GET"
    origin := "https://cdn.example"
    hostname := "cdn.example"
    pathname := "/tacos/asada.jpg"
    destination := "image"
    url := "https://cdn.example/tacos/asada.jpg"
    mode := "no-cors" }

/-! ## Association list lemmas -/

theorem lookupA_setA_self {α : Type} (l : List (String × α)) (k : String) (v : α) :
    lookupA (setA l k v) k = some v := by
  induction l with
  | nil => simp [setA, lookupA]
  | cons kv rest ih =>
    by_cases h : kv.1 = k
    · simp [setA, h, lookupA]
    · simp [setA, h, lookupA, ih]

theorem lookupA_setA_ne {α : Type} (l : List (String × α)) (k k' : String) (v : α)
    (h : k' ≠ k) : lookupA (setA l k v) k' = lookupA l k' := by
  have h' : ¬(k = k') := fun hk => h hk.symm
  induction l with
  | nil => simp [setA, lookupA, h']
  | cons kv rest ih =>
    by_cases hk : kv.1 = k
    · simp [setA, hk, lookupA, h']
    · simp only [setA, if_neg hk]
      by_cases hk' : kv.1 = k'
      · simp [lookupA, hk']
      · simp [lookupA, hk', ih]

/-! ## `splitBefore` lemmas -/

/-- A scan step on a head character different from the separator's first
character keeps that character. -/
theorem splitBefore_cons_of_ne (s : List Char) (c : Char) (l : List Char)
    (hc : c ≠ '&') : splitBefore ('&' :: s) (c :: l) = c :: splitBefore ('&' :: s) l := by
  have hpre : ¬(('&' :: s) <+: (c :: l)) :=
    fun hp => hc ((List.cons_prefix_cons.mp hp).1).symm
  simp only [splitBefore]
  rw [if_neg hpre]

/-- Scanning a list that never hits the separator's first character returns
the list unchanged. -/
theorem splitBefore_of_not_mem (s : List Char) (l : List Char)
    (h : '&' ∉ l) : splitBefore ('&' :: s) l = l := by
  induction l with
  | nil => rfl
  | cons c cs ih =>
    have hc : c ≠ '&' := fun hc => h (hc ▸ List.mem_cons_self c cs)
    have hcs : '&' ∉ cs := fun hm => h (List.mem_cons_of_mem c hm)
    rw [splitBefore_cons_of_ne s c cs hc, ih hcs]

/-- Scanning `l ++ sep ++ t` when `l` is free of the separator's first
character stops exactly at the appended separator. -/
theorem splitBefore_append (s : List Char) (l t : List Char)
    (h : '&' ∉ l) : splitBefore ('&' :: s) (l ++ ('&' :: s) ++ t) = l := by
  induction l with
  | nil =>
    simp only [List.nil_append, List.cons_append, splitBefore]
    rw [if_pos]
    exact List.cons_prefix_cons.mpr ⟨rfl, List.prefix_append s t⟩
  | cons c cs ih =>
    have hc : c ≠ '&' := fun hc => h (hc ▸ List.mem_cons_self c cs)
    have hcs : '&' ∉ cs := fun hm => h (List.mem_cons_of_mem c hm)
    simp only [List.cons_append]
    rw [splitBefore_cons_of_ne s c (cs ++ ('&' :: s) ++ t) hc, ih hcs]

theorem string_data_append (a b : String) : (a ++ b).data = a.data ++ b.data := by
  cases a
  cases b
  rfl

/-! ## `escapeHtml` lemmas and claim C10 -/

theorem ampOnly_escapeChar_append (c : Char) (l : List Char) :
    ampOnly (escapeChar c ++ l) = ampOnly l := by
  by_cases h1 : c = '&'
  · subst h1; rfl
  · by_cases h2 : c = '<'
    · subst h2; rfl
    · by_cases h3 : c = '>'
      · subst h3; rfl
      · by_cases h4 : c = '"'
        · subst h4; rfl
        · have he : escapeChar c = [c] := by simp [escapeChar, h1, h2, h3, h4]
          rw [he, List.singleton_append]
          rcases l with _ | ⟨a, l⟩
          · simp [ampOnly, h1, h2, h3, h4]
          · simp [ampOnly, h1, h2, h3, h4]

theorem ampOnly_escapeList (cs : List Char) : ampOnly (escapeList cs) = true := by
  induction cs with
  | nil => rfl
  | cons c cs ih => rw [escapeList, ampOnly_escapeChar_append, ih]

theorem mem_escapeChar (c c' : Char) (h : c' ∈ escapeChar c) :
    c' ≠ '<' ∧ c' ≠ '>' ∧ c' ≠ '"' := by
  by_cases h1 : c = '&'
  · subst h1
    simp [escapeChar] at h
    rcases h with h | h | h | h | h <;> subst h <;> decide
  · by_cases h2 : c = '<'
    · subst h2
      simp [escapeChar] at h
      rcases h with h | h | h | h <;> subst h <;> decide
    · by_cases h3 : c = '>'
      · subst h3
        simp [escapeChar] at h
        rcases h with h | h | h | h <;> subst h <;> decide
      · by_cases h4 : c = '"'
        · subst h4
          simp [escapeChar] at h
          rcases h with h | h | h | h | h | h <;> subst h <;> decide
        · have he : escapeChar c = [c] := by simp [escapeChar, h1, h2, h3, h4]
          rw [he, List.mem_singleton] at h
          subst h
          exact ⟨h2, h3, h4⟩

theorem mem_escapeList (cs : List Char) (c' : Char) (h : c' ∈ escapeList cs) :
    c' ≠ '<' ∧ c' ≠ '>' ∧ c' ≠ '"' := by
  induction cs with
  | nil => simp [escapeList] at h
  | cons c cs ih =>
    rw [escapeList, List.mem_append] at h
    rcases h with h | h
    · exact mem_escapeChar c c' h
    · exact ih h

/-- Claim C10: for every input string, the output of `escapeHtml` contains
no occurrence of the characters `<`, `>`, or `"`, and contains `&` only as
the first character of one of the replacement entities; `escapeHtml` of the
falsy string input (the empty string) is the empty string. -/
theorem C10_escapeHtml_sound (s : String) :
    (∀ c ∈ (escapeHtml s).data, c ≠ '<' ∧ c ≠ '>' ∧ c ≠ '"')
    ∧ ampOnly (escapeHtml s).data = true
    ∧ escapeHtml "" = "" := by
  refine ⟨?_, ?_, rfl⟩
  · intro c hc
    by_cases hs : s = ""
    · subst hs; simp [escapeHtml] at hc
    · rw [escapeHtml, if_neg hs] at hc
      exact mem_escapeList s.data c hc
  · by_cases hs : s = ""
    · subst hs; rfl
    · rw [escapeHtml, if_neg hs]
      exact ampOnly_escapeList s.data

/-! ## `processData` step characterization -/

theorem toLowerStr_empty : toLowerStr "" = "" := rfl

theorem category_ne_empty_of_ann (i : Item)
    (h : toLowerStr i.category = "announcement") : i.category ≠ "" := by
  intro he
  rw [he, toLowerStr_empty] at h
  exact absurd h (by decide)

/-- src/main.js:300-303: an announcement-category row is appended to the
announcements sequence and nothing else changes; the diversion happens
before the missing-name check. -/
theorem processRowStep_ann (m : Model) (row : RawRow)
    (h : toLowerStr (normalizeRow row).category = "announcement") :
    processRowStep m row = { m with announcements := m.announcements ++ [normalizeRow row] } := by
  have hne := category_ne_empty_of_ann (normalizeRow row) h
  simp [processRowStep, hne, h]

/-- src/main.js:308: a non-announcement row with an empty name is a
no-op. -/
theorem processRowStep_skip (m : Model) (row : RawRow)
    (hna : toLowerStr (normalizeRow row).category ≠ "announcement")
    (hn : (normalizeRow row).name = "") :
    processRowStep m row = m := by
  simp [processRowStep, hna, hn]

/-- src/main.js:317-331: a non-announcement row with a name and a grouping
name takes the grouped branch on the category-defaulted record. -/
theorem processRowStep_grouped (m : Model) (row : RawRow)
    (hna : toLowerStr (normalizeRow row).category ≠ "announcement")
    (hn : (normalizeRow row).name ≠ "")
    (hg : (normalizeRow row).group ≠ "") :
    processRowStep m row
      = stepGrouped m { normalizeRow row with category := effCat (normalizeRow row) } := by
  simp [processRowStep, hna, hn, hg]

/-- src/main.js:332-334: a non-announcement row with a name and no grouping
name takes the individual-item branch on the category-defaulted record. -/
theorem processRowStep_individual (m : Model) (row : RawRow)
    (hna : toLowerStr (normalizeRow row).category ≠ "announcement")
    (hn : (normalizeRow row).name ≠ "")
    (hg : (normalizeRow row).group = "") :
    processRowStep m row
      = stepIndividual m { normalizeRow row with category := effCat (normalizeRow row) } := by
  simp [processRowStep, hna, hn, hg]

theorem processFrom_append (m : Model) (a b : List RawRow) :
    processFrom m (a ++ b) = processFrom (processFrom m a) b := by
  simp [processFrom, List.foldl_append]

theorem processFrom_cons (m : Model) (r : RawRow) (rs : List RawRow) :
    processFrom m (r :: rs) = processFrom (processRowStep m r) rs := rfl

/-! ## Group lookup under the step function -/

theorem groupLookup_announcements (m : Model) (a : List Item) (c g : String) :
    groupLookup { m with announcements := a } c g = groupLookup m c g := rfl

/-- Creating a group: when the bucket has no group of that name (or no
bucket exists), `stepGrouped` records the new group with this record's
description and groupImage and a single member entry. -/
theorem stepGrouped_groupLookup_create (m : Model) (i : Item)
    (habs : groupLookup m i.category i.group = none) :
    groupLookup (stepGrouped m i) i.category i.group
      = some ⟨i.description, i.groupImage, [memberEntry i]⟩ := by
  cases hcat : lookupA m.categories i.category with
  | none =>
    simp only [stepGrouped, hcat, Option.getD_none, groupLookup, lookupA_setA_self]
    simp [setA, lookupA]
  | some b =>
    have hgi : lookupA b.groupedItems i.group = none := by
      simpa [groupLookup, hcat] using habs
    simp only [stepGrouped, hcat, Option.getD_some, hgi, Option.getD_none,
      groupLookup, lookupA_setA_self]
    simp

/-- Extending a group: when the group already exists, `stepGrouped` keeps
its description and image and appends the member entry. -/
theorem stepGrouped_groupLookup_append (m : Model) (i : Item) (c g : String) (G : Group)
    (hc : i.category = c) (hg : i.group = g)
    (hsome : groupLookup m c g = some G) :
    groupLookup (stepGrouped m i) c g
      = some { G with items := G.items ++ [memberEntry i] } := by
  subst hc
  subst hg
  cases hcat : lookupA m.categories i.category with
  | none => simp [groupLookup, hcat] at hsome
  | some b =>
    have hgi : lookupA b.groupedItems i.group = some G := by
      simpa [groupLookup, hcat] using hsome
    simp only [stepGrouped, hcat, Option.getD_some, hgi,
      groupLookup, lookupA_setA_self]

/-- A grouped step aimed at another category or another group name leaves
the looked-up group unchanged. -/
theorem stepGrouped_groupLookup_other (m : Model) (i : Item) (c g : String) (G : Group)
    (hne : i.category ≠ c ∨ i.group ≠ g)
    (hsome : groupLookup m c g = some G) :
    groupLookup (stepGrouped m i) c g = some G := by
  cases hb : lookupA m.categories c with
  | none => simp [groupLookup, hb] at hsome
  | some b =>
    have hgi : lookupA b.groupedItems g = some G := by
      simpa [groupLookup, hb] using hsome
    by_cases hc : i.category = c
    · rcases hne with hne | hne
      · exact absurd hc hne
      · subst hc
        simp only [stepGrouped, hb, Option.getD_some, groupLookup, lookupA_setA_self]
        rw [lookupA_setA_ne _ _ _ _ (fun hgg => hne hgg.symm)]
        exact hgi
    · simp only [stepGrouped, groupLookup]
      rw [lookupA_setA_ne _ _ _ _ (fun hcc => hc hcc.symm), hb]
      exact hgi

/-- An individual-item step never changes any group. -/
theorem stepIndividual_groupLookup (m : Model) (i : Item) (c g : String) (G : Group)
    (hsome : groupLookup m c g = some G) :
    groupLookup (stepIndividual m i) c g = some G := by
  cases hb : lookupA m.categories c with
  | none => simp [groupLookup, hb] at hsome
  | some b =>
    have hgi : lookupA b.groupedItems g = some G := by
      simpa [groupLookup, hb] using hsome
    by_cases hc : i.category = c
    · subst hc
      simp only [stepIndividual, hb, Option.getD_some, groupLookup, lookupA_setA_self]
      exact hgi
    · simp only [stepIndividual, groupLookup]
      rw [lookupA_setA_ne _ _ _ _ (fun hcc => hc hcc.symm), hb]
      exact hgi

/-- No row processed after a group exists ever changes that group's
description or image, and its member list only ever grows at the end. -/
theorem processRowStep_group_mono (m : Model) (row : RawRow) (c g : String) (G : Group)
    (h : groupLookup m c g = some G) :
    ∃ G', groupLookup (processRowStep m row) c g = some G'
      ∧ G'.description = G.description ∧ G'.image = G.image
      ∧ G.items <+: G'.items := by
  by_cases hann : toLowerStr (normalizeRow row).category = "announcement"
  · rw [processRowStep_ann m row hann, groupLookup_announcements]
    exact ⟨G, h, rfl, rfl, List.prefix_refl _⟩
  · by_cases hn : (normalizeRow row).name = ""
    · rw [processRowStep_skip m row hann hn]
      exact ⟨G, h, rfl, rfl, List.prefix_refl _⟩
    · by_cases hg : (normalizeRow row).group = ""
      · rw [processRowStep_individual m row hann hn hg]
        exact ⟨G, stepIndividual_groupLookup _ _ c g G h, rfl, rfl, List.prefix_refl _⟩
      · rw [processRowStep_grouped m row hann hn hg]
        set i := { normalizeRow row with category := effCat (normalizeRow row) } with hi
        by_cases hcg : i.category = c ∧ i.group = g
        · exact ⟨{ G with items := G.items ++ [memberEntry i] },
            stepGrouped_groupLookup_append m i c g G hcg.1 hcg.2 h, rfl, rfl,
            List.prefix_append G.items [memberEntry i]⟩
        · rcases not_and_or.mp hcg with hne | hne
          · exact ⟨G, stepGrouped_groupLookup_other m i c g G (Or.inl hne) h,
              rfl, rfl, List.prefix_refl _⟩
          · exact ⟨G, stepGrouped_groupLookup_other m i c g G (Or.inr hne) h,
              rfl, rfl, List.prefix_refl _⟩

/-- Fold version of `processRowStep_group_mono`. -/
theorem processFrom_group_mono (rows : List RawRow) (m : Model) (c g : String) (G : Group)
    (h : groupLookup m c g = some G) :
    ∃ G', groupLookup (processFrom m rows) c g = some G'
      ∧ G'.description = G.description ∧ G'.image = G.image
      ∧ G.items <+: G'.items := by
  induction rows generalizing m G with
  | nil => exact ⟨G, h, rfl, rfl, List.prefix_refl _⟩
  | cons r rs ih =>
    obtain ⟨G₁, h₁, hd₁, hi₁, hp₁⟩ := processRowStep_group_mono m r c g G h
    obtain ⟨G₂, h₂, hd₂, hi₂, hp₂⟩ := ih (processRowStep m r) G₁ h₁
    exact ⟨G₂, h₂, hd₂.trans hd₁, hi₂.trans hi₁, hp₁.trans hp₂⟩

/-- Claim C3: two rows with the same non-empty groupingName and the same
effective category land in the same Group of that category's bucket; the
Group's description and image are the first such row's description and
groupImage, unchanged by the second row (and by any other row). -/
theorem C3_group_first_row_wins (pre mid post : List RawRow) (row₁ row₂ : RawRow)
    (hg₁ : (normalizeRow row₁).group ≠ "")
    (hg₂ : (normalizeRow row₂).group = (normalizeRow row₁).group)
    (hc₂ : effCat (normalizeRow row₂) = effCat (normalizeRow row₁))
    (ha₁ : toLowerStr (normalizeRow row₁).category ≠ "announcement")
    (ha₂ : toLowerStr (normalizeRow row₂).category ≠ "announcement")
    (hn₁ : (normalizeRow row₁).name ≠ "")
    (hn₂ : (normalizeRow row₂).name ≠ "")
    (habs : groupLookup (processData pre) (effCat (normalizeRow row₁))
        ((normalizeRow row₁).group) = none) :
    ∃ G, groupLookup (processData (pre ++ (row₁ :: mid) ++ (row₂ :: post)))
        (effCat (normalizeRow row₁)) ((normalizeRow row₁).group) = some G
      ∧ G.description = (normalizeRow row₁).description
      ∧ G.image = (normalizeRow row₁).groupImage
      ∧ (⟨(normalizeRow row₁).name, (normalizeRow row₁).price,
            (normalizeRow row₁).badge⟩ : GroupEntry) ∈ G.items
      ∧ (⟨(normalizeRow row₂).name, (normalizeRow row₂).price,
            (normalizeRow row₂).badge⟩ : GroupEntry) ∈ G.items := by
  have hsplit : processData (pre ++ (row₁ :: mid) ++ (row₂ :: post))
      = processFrom (processRowStep
          (processFrom (processRowStep (processData pre) row₁) mid) row₂) post := by
    simp [processData, processFrom_append, processFrom_cons]
  rw [hsplit]
  -- the first row creates the group with its description and groupImage
  rw [processRowStep_grouped (processData pre) row₁ ha₁ hn₁ hg₁]
  have hcreate := stepGrouped_groupLookup_create (processData pre)
    { normalizeRow row₁ with category := effCat (normalizeRow row₁) } habs
  -- the rows in between preserve description/image and extend items at most
  obtain ⟨G₁, hG₁, hd₁, him₁, hp₁⟩ :=
    processFrom_group_mono mid _ (effCat (normalizeRow row₁)) ((normalizeRow row₁).group)
      _ hcreate
  -- the second row appends its member entry to that same group
  rw [processRowStep_grouped _ row₂ ha₂ hn₂ (hg₂.trans_ne hg₁)]
  have happend' := stepGrouped_groupLookup_append _
    { normalizeRow row₂ with category := effCat (normalizeRow row₂) }
    (effCat (normalizeRow row₁)) ((normalizeRow row₁).group) G₁ hc₂ hg₂ hG₁
  -- the rows after preserve description/image and extend items at most
  obtain ⟨G₂, hG₂, hd₂, him₂, hp₂⟩ :=
    processFrom_group_mono post _ (effCat (normalizeRow row₁)) ((normalizeRow row₁).group)
      _ happend'
  refine ⟨G₂, hG₂, ?_, ?_, ?_, ?_⟩
  · rw [hd₂]; exact hd₁
  · rw [him₂]; exact him₁
  · have h1 : (⟨(normalizeRow row₁).name, (normalizeRow row₁).price,
        (normalizeRow row₁).badge⟩ : GroupEntry) ∈ G₁.items :=
      hp₁.sublist.subset (List.mem_singleton_self _)
    exact hp₂.sublist.subset (List.mem_append_left _ h1)
  · exact hp₂.sublist.subset (List.mem_append_right _ (List.mem_singleton_self _))

/-- Witness for C3 at the specification's end-to-end example rows. -/
theorem C3_group_first_row_wins_witness :
    ((normalizeRow rowAsada).group ≠ ""
      ∧ (normalizeRow rowPastor).group = (normalizeRow rowAsada).group
      ∧ effCat (normalizeRow rowPastor) = effCat (normalizeRow rowAsada)
      ∧ toLowerStr (normalizeRow rowAsada).category ≠ "announcement"
      ∧ toLowerStr (normalizeRow rowPastor).category ≠ "announcement"
      ∧ (normalizeRow rowAsada).name ≠ ""
      ∧ (normalizeRow rowPastor).name ≠ ""
      ∧ groupLookup (processData []) (effCat (normalizeRow rowAsada))
          ((normalizeRow rowAsada).group) = none)
    ∧ (∃ G, groupLookup (processData ([] ++ (rowAsada :: []) ++ (rowPastor :: [])))
        (effCat (normalizeRow rowAsada)) ((normalizeRow rowAsada).group) = some G
      ∧ G.description = (normalizeRow rowAsada).description
      ∧ G.image = (normalizeRow rowAsada).groupImage
      ∧ (⟨(normalizeRow rowAsada).name, (normalizeRow rowAsada).price,
            (normalizeRow rowAsada).badge⟩ : GroupEntry) ∈ G.items
      ∧ (⟨(normalizeRow rowPastor).name, (normalizeRow rowPastor).price,
            (normalizeRow rowPastor).badge⟩ : GroupEntry) ∈ G.items) :=
  ⟨by decide, C3_group_first_row_wins [] [] [] rowAsada rowPastor (by decide) (by decide)
    (by decide) (by decide) (by decide) (by decide) (by decide) (by decide)⟩

/-! ## Counting model entries: lemmas for claim C4 -/

theorem pairSum_setA_of_none {α : Type} (l : List (String × α)) (k : String) (v : α)
    (g : String × α → Nat) (h : lookupA l k = none) :
    ((setA l k v).map g).sum = (l.map g).sum + g (k, v) := by
  induction l with
  | nil => simp [setA]
  | cons kv rest ih =>
    obtain ⟨k1, v1⟩ := kv
    rw [lookupA] at h
    by_cases hk : k1 = k
    · simp [hk] at h
    · rw [if_neg hk] at h
      simp only [setA, if_neg hk, List.map_cons, List.sum_cons, ih h]
      omega

theorem pairSum_setA_of_some {α : Type} (l : List (String × α)) (k : String) (v w : α)
    (g : String × α → Nat) (h : lookupA l k = some w) :
    ((setA l k v).map g).sum + g (k, w) = (l.map g).sum + g (k, v) := by
  induction l with
  | nil => simp [lookupA] at h
  | cons kv rest ih =>
    obtain ⟨k1, v1⟩ := kv
    rw [lookupA] at h
    by_cases hk : k1 = k
    · rw [if_pos hk] at h
      obtain rfl : v1 = w := by injection h
      subst hk
      simp [setA]
      omega
    · rw [if_neg hk] at h
      simp only [setA, if_neg hk, List.map_cons, List.sum_cons]
      have := ih h
      omega

/-- Replacing or appending an entry whose metric is one more than the
replaced entry's (or one, when the key is new) raises the total by one. -/
theorem pairSum_setA_plus_one {α : Type} (l : List (String × α)) (k : String) (v : α)
    (g : String × α → Nat)
    (h : ∀ w, lookupA l k = some w → g (k, v) = g (k, w) + 1)
    (h0 : lookupA l k = none → g (k, v) = 1) :
    ((setA l k v).map g).sum = (l.map g).sum + 1 := by
  cases hl : lookupA l k with
  | none => rw [pairSum_setA_of_none l k v g hl, h0 hl]
  | some w =>
    have h1 := pairSum_setA_of_some l k v w g hl
    have h2 := h w hl
    omega

/-- Replacing or appending an entry whose metric equals the replaced
entry's (or zero, when the key is new) keeps the total. -/
theorem pairSum_setA_preserve {α : Type} (l : List (String × α)) (k : String) (v : α)
    (g : String × α → Nat)
    (h : ∀ w, lookupA l k = some w → g (k, v) = g (k, w))
    (h0 : lookupA l k = none → g (k, v) = 0) :
    ((setA l k v).map g).sum = (l.map g).sum := by
  cases hl : lookupA l k with
  | none =>
    rw [pairSum_setA_of_none l k v g hl, h0 hl]
    omega
  | some w =>
    have h1 := pairSum_setA_of_some l k v w g hl
    have h2 := h w hl
    omega

theorem stepGrouped_announcements (m : Model) (i : Item) :
    (stepGrouped m i).announcements = m.announcements := rfl

theorem stepIndividual_announcements (m : Model) (i : Item) :
    (stepIndividual m i).announcements = m.announcements := rfl

/-- A grouped step adds exactly one grouped member entry. -/
theorem stepGrouped_modelGroupEntries (m : Model) (i : Item) :
    modelGroupEntries (stepGrouped m i) = modelGroupEntries m + 1 := by
  simp only [stepGrouped, modelGroupEntries]
  apply pairSum_setA_plus_one
  · intro w hw
    simp only [hw, Option.getD_some, bucketGroupEntries]
    apply pairSum_setA_plus_one
    · intro G hG
      simp [hG]
    · intro hnone
      simp [hnone]
  · intro h0
    simp [h0, bucketGroupEntries, setA, lookupA]

/-- A grouped step never touches individual items. -/
theorem stepGrouped_modelIndividuals (m : Model) (i : Item) :
    modelIndividuals (stepGrouped m i) = modelIndividuals m := by
  simp only [stepGrouped, modelIndividuals]
  apply pairSum_setA_preserve
  · intro w hw
    simp [hw]
  · intro h0
    simp [h0]

/-- An individual step adds exactly one individual item. -/
theorem stepIndividual_modelIndividuals (m : Model) (i : Item) :
    modelIndividuals (stepIndividual m i) = modelIndividuals m + 1 := by
  simp only [stepIndividual, modelIndividuals]
  apply pairSum_setA_plus_one
  · intro w hw
    simp [hw]
  · intro h0
    simp [h0]

/-- An individual step never touches grouped entries. -/
theorem stepIndividual_modelGroupEntries (m : Model) (i : Item) :
    modelGroupEntries (stepIndividual m i) = modelGroupEntries m := by
  simp only [stepIndividual, modelGroupEntries]
  apply pairSum_setA_preserve
  · intro w hw
    simp [hw, bucketGroupEntries]
  · intro h0
    simp [h0, bucketGroupEntries]

/-- Claim C4: every row contributes to at most one of announcements,
grouped membership, or the individual-item list; for a row with a
non-empty name and a category not case-insensitively equal to
"announcement", exactly one of grouped membership / individual item holds,
decided by whether groupingName is non-empty.  The four cases are
exhaustive and mutually exclusive, and each adds to exactly one of the
three counters (announcements length, grouped member entries, individual
items) while leaving the other two unchanged. -/
theorem C4_row_exclusive_contribution (m : Model) (row : RawRow) :
    (toLowerStr (normalizeRow row).category = "announcement" →
      processRowStep m row
        = { m with announcements := m.announcements ++ [normalizeRow row] })
    ∧ (toLowerStr (normalizeRow row).category ≠ "announcement" →
        (normalizeRow row).name = "" → processRowStep m row = m)
    ∧ (toLowerStr (normalizeRow row).category ≠ "announcement" →
        (normalizeRow row).name ≠ "" → (normalizeRow row).group ≠ "" →
        (processRowStep m row).announcements = m.announcements
        ∧ modelGroupEntries (processRowStep m row) = modelGroupEntries m + 1
        ∧ modelIndividuals (processRowStep m row) = modelIndividuals m)
    ∧ (toLowerStr (normalizeRow row).category ≠ "announcement" →
        (normalizeRow row).name ≠ "" → (normalizeRow row).group = "" →
        (processRowStep m row).announcements = m.announcements
        ∧ modelIndividuals (processRowStep m row) = modelIndividuals m + 1
        ∧ modelGroupEntries (processRowStep m row) = modelGroupEntries m) := by
  refine ⟨fun h => processRowStep_ann m row h,
    fun hna hn => processRowStep_skip m row hna hn, fun hna hn hg => ?_, fun hna hn hg => ?_⟩
  · rw [processRowStep_grouped m row hna hn hg]
    exact ⟨stepGrouped_announcements _ _, stepGrouped_modelGroupEntries _ _,
      stepGrouped_modelIndividuals _ _⟩
  · rw [processRowStep_individual m row hna hn hg]
    exact ⟨stepIndividual_announcements _ _, stepIndividual_modelIndividuals _ _,
      stepIndividual_modelGroupEntries _ _⟩

/-- Witness for C4 at a concrete grouped row and a concrete model. -/
theorem C4_row_exclusive_contribution_witness :
    (toLowerStr (normalizeRow rowPastor).category ≠ "announcement"
      ∧ (normalizeRow rowPastor).name ≠ "" ∧ (normalizeRow rowPastor).group ≠ "")
    ∧ ((processRowStep ⟨[], []⟩ rowPastor).announcements = (⟨[], []⟩ : Model).announcements
      ∧ modelGroupEntries (processRowStep ⟨[], []⟩ rowPastor)
          = modelGroupEntries ⟨[], []⟩ + 1
      ∧ modelIndividuals (processRowStep ⟨[], []⟩ rowPastor)
          = modelIndividuals ⟨[], []⟩) :=
  ⟨by decide, (C4_row_exclusive_contribution ⟨[], []⟩ rowPastor).2.2.1 (by decide)
    (by decide) (by decide)⟩

/-- Claim C5: a row whose category case-insensitively equals
"announcement" is appended to the announcements sequence and contributes
nothing else; the diversion is decided before the missing-name check, so
it happens even for a row with an empty or missing name. -/
theorem C5_announcement_diversion (pre post : List RawRow) (row : RawRow)
    (h : toLowerStr (normalizeRow row).category = "announcement") :
    processData (pre ++ row :: post)
      = processFrom { processData pre with
          announcements := (processData pre).announcements ++ [normalizeRow row] } post := by
  have hstep : ∀ m : Model, processRowStep m row
      = { m with announcements := m.announcements ++ [normalizeRow row] } :=
    fun m => processRowStep_ann m row h
  simp [processData, processFrom_append, processFrom_cons, hstep]

/-- Witness for C5 at an announcement row with a missing name. -/
theorem C5_announcement_diversion_witness :
    toLowerStr (normalizeRow annRowNoName).category = "announcement"
    ∧ processData ([] ++ annRowNoName :: [])
      = processFrom { processData [] with
          announcements := (processData []).announcements ++ [normalizeRow annRowNoName] } [] :=
  ⟨by decide, C5_announcement_diversion [] [] annRowNoName (by decide)⟩

/-- Counterexample to claim C6 as stated: a row whose name field is empty
but whose category is "announcement" does change the model (it is appended
to the announcements sequence), so inserting it is not a no-op. -/
theorem C6_empty_name_noop_cex :
    (normalizeRow annRowNoName).name = ""
    ∧ processData [annRowNoName] ≠ processData [] := by
  constructor
  · decide
  · decide

/-- Claim C6, amended: a row with an empty or missing name whose category
is not case-insensitively "announcement" leaves the model unchanged:
inserting it anywhere yields the same output as omitting it. -/
theorem C6_empty_name_noop_amended (pre post : List RawRow) (row : RawRow)
    (hn : (normalizeRow row).name = "")
    (hna : toLowerStr (normalizeRow row).category ≠ "announcement") :
    processData (pre ++ row :: post) = processData (pre ++ post) := by
  have hstep : ∀ m : Model, processRowStep m row = m :=
    fun m => processRowStep_skip m row hna hn
  simp [processData, processFrom_append, processFrom_cons, hstep]

/-- Witness for the amended C6 at a concrete name-less row in the middle of
an input. -/
theorem C6_empty_name_noop_amended_witness :
    ((normalizeRow noNameRow).name = ""
      ∧ toLowerStr (normalizeRow noNameRow).category ≠ "announcement")
    ∧ processData ([rowAsada] ++ noNameRow :: [rowPastor])
      = processData ([rowAsada] ++ [rowPastor]) :=
  ⟨by decide, C6_empty_name_noop_amended [rowAsada] [rowPastor] noNameRow
    (by decide) (by decide)⟩

/-! ## Service-worker claims -/

/-- Claim C1: on a cache hit under the stripped key, `handleCSVRequest`
returns the cached response — for every possible network outcome, i.e.
without awaiting the network fetch; and whenever the network fetch
resolves with status 200, the cache entry under the stripped key holds the
fresh response afterwards and a `CSV_UPDATED` message carrying the
timestamp is posted to every currently open client, whether or not the
cache lookup hit. -/
theorem C1_stale_while_revalidate (cache : Cache) (clients : List Nat) (url : String)
    (net : FetchResult) (now : Nat) :
    (∀ c, lookupA cache (handleCSVcacheKey url) = some c →
      (handleCSVRequest cache clients url net now).result = Except.ok (some c))
    ∧ (∀ r, net = FetchResult.ok r → r.status = 200 →
      lookupA (handleCSVRequest cache clients url net now).cache
          (handleCSVcacheKey url) = some r
      ∧ (handleCSVRequest cache clients url net now).posted
          = clients.map (fun cl => (cl, ⟨"CSV_UPDATED", now⟩))) := by
  constructor
  · intro c hc
    simp only [handleCSVRequest, hc]
  · intro r hr hst
    subst hr
    cases hc : lookupA cache (handleCSVcacheKey url) with
    | some c => simp [handleCSVRequest, hc, hst, lookupA_setA_self]
    | none => simp [handleCSVRequest, hc, hst, lookupA_setA_self]

/-- Witness for C1: a warm cache entry under the stripped key, a
status-200 network response, one open client. -/
theorem C1_stale_while_revalidate_witness :
    (lookupA [("u", (⟨200, "old"⟩ : Response))] (handleCSVcacheKey "u&cacheBust=1")
        = some ⟨200, "old"⟩
      ∧ (⟨200, "new"⟩ : Response).status = 200)
    ∧ (handleCSVRequest [("u", ⟨200, "old"⟩)] [7] "u&cacheBust=1"
        (FetchResult.ok ⟨200, "new"⟩) 42).result = Except.ok (some ⟨200, "old"⟩)
    ∧ lookupA (handleCSVRequest [("u", ⟨200, "old"⟩)] [7] "u&cacheBust=1"
        (FetchResult.ok ⟨200, "new"⟩) 42).cache (handleCSVcacheKey "u&cacheBust=1")
        = some ⟨200, "new"⟩
    ∧ (handleCSVRequest [("u", ⟨200, "old"⟩)] [7] "u&cacheBust=1"
        (FetchResult.ok ⟨200, "new"⟩) 42).posted = [(7, ⟨"CSV_UPDATED", 42⟩)] :=
  ⟨by decide,
   (C1_stale_while_revalidate [("u", ⟨200, "old"⟩)] [7] "u&cacheBust=1"
      (FetchResult.ok ⟨200, "new"⟩) 42).1 ⟨200, "old"⟩ (by decide),
   ((C1_stale_while_revalidate [("u", ⟨200, "old"⟩)] [7] "u&cacheBust=1"
      (FetchResult.ok ⟨200, "new"⟩) 42).2 ⟨200, "new"⟩ rfl (by decide)).1,
   (((C1_stale_while_revalidate [("u", ⟨200, "old"⟩)] [7] "u&cacheBust=1"
      (FetchResult.ok ⟨200, "new"⟩) 42).2 ⟨200, "new"⟩ rfl (by decide)).2).trans (by decide)⟩

/-- Claim C2 concerns the cache-miss path of `handleCSVRequest` when the
network fetch rejects.  The claim (and sw.js:130-135, which logs the
failure and rethrows) expects the rejection to propagate; but the `.catch`
attached to the background promise at sw.js:116-119 swallows the rejection
and fulfills that promise with `undefined`, so `await fetchPromise` never
throws and the handler resolves with `undefined` — a non-Response value —
instead of rejecting.  This theorem evaluates the embedded handler at the
failing input: empty cache, rejecting fetch. -/
theorem C2_fetch_failure_resolves_undefined :
    (handleCSVRequest [] [] (SHEET_URL ++ "&cacheBust=1") FetchResult.err 0).result
        = Except.ok none
    ∧ (handleCSVRequest [] [] (SHEET_URL ++ "&cacheBust=1") FetchResult.err 0).result
        ≠ Except.error () := by
  constructor
  · decide
  · decide

/-- Claim C7: request URLs to the tabular-data endpoint that differ only
in the cache-busting query parameter — in its value or in its presence —
yield the same stripped cache key in `handleCSVRequest`.  `b` is the
endpoint URL up to the cache-bust parameter; like `SHEET_URL`, it contains
no `&` (its only query parameter is the first one). -/
theorem C7_cachebust_stripped_key (b t₁ t₂ : String) (hb : '&' ∉ b.data) :
    handleCSVcacheKey (b ++ "&cacheBust=" ++ t₁)
        = handleCSVcacheKey (b ++ "&cacheBust=" ++ t₂)
    ∧ handleCSVcacheKey (b ++ "&cacheBust=" ++ t₁) = handleCSVcacheKey b := by
  have hsep : "&cacheBust=".data = '&' :: "cacheBust=".data := rfl
  have key : ∀ t : String, handleCSVcacheKey (b ++ "&cacheBust=" ++ t) = ⟨b.data⟩ := by
    intro t
    show (⟨splitBefore "&cacheBust=".data (b ++ "&cacheBust=" ++ t).data⟩ : String)
        = ⟨b.data⟩
    rw [string_data_append, string_data_append, hsep]
    exact congrArg String.mk (splitBefore_append "cacheBust=".data b.data t.data hb)
  have keyb : handleCSVcacheKey b = ⟨b.data⟩ := by
    show (⟨splitBefore "&cacheBust=".data b.data⟩ : String) = ⟨b.data⟩
    rw [hsep]
    exact congrArg String.mk (splitBefore_of_not_mem "cacheBust=".data b.data hb)
  exact ⟨(key t₁).trans (key t₂).symm, (key t₁).trans keyb.symm⟩

/-- Witness for C7 at the real sheet URL and two cache-bust timestamps. -/
theorem C7_cachebust_stripped_key_witness :
    ('&' ∉ SHEET_URL.data)
    ∧ (handleCSVcacheKey (SHEET_URL ++ "&cacheBust=" ++ "1700000000000")
        = handleCSVcacheKey (SHEET_URL ++ "&cacheBust=" ++ "1700000000001")
      ∧ handleCSVcacheKey (SHEET_URL ++ "&cacheBust=" ++ "1700000000000")
        = handleCSVcacheKey SHEET_URL) :=
  ⟨by decide,
   C7_cachebust_stripped_key SHEET_URL "1700000000000" "1700000000001" (by decide)⟩

/-- Counterexample to claim C8 as stated: a same-origin GET request with
destination `image` falls into the same-origin branch of the fetch
listener (sw.js:79), so it is served cache-first from the static cache
namespace, not from the dynamic one shared with the tabular data. -/
theorem C8_image_dynamic_cache_cex :
    fetchRoute "https://tacoschilis.example" sameOriginImageReq
        ≠ Routing.cacheFirst CACHE_NAME
    ∧ fetchRoute "https://tacoschilis.example" sameOriginImageReq
        = Routing.cacheFirst STATIC_CACHE_NAME := by
  constructor
  · decide
  · decide

/-- Claim C8, amended: a cross-origin GET image request outside the
tabular-data endpoint is served cache-first with the dynamic cache
namespace; a same-origin GET image request is served with the same
cache-first strategy but under the static namespace; and the cache-first
strategy returns a cached response as is and stores a status-200 network
response under the request URL on a miss. -/
theorem C8_image_cache_first_amended (selfOrigin : String) (req : RequestInfo)
    (cache staticCache : Cache) (r : Response)
    (hm : req.method = "GET") (hd : req.destination = "image") :
    (req.origin = selfOrigin →
      fetchRoute selfOrigin req = Routing.cacheFirst STATIC_CACHE_NAME)
    ∧ (req.origin ≠ selfOrigin →
        (containsSub req.hostname "docs.google.com"
          && containsSub req.pathname "/pub") = false →
        fetchRoute selfOrigin req = Routing.cacheFirst CACHE_NAME)
    ∧ (∀ c, lookupA cache req.url = some c →
        cacheFirstStrategy cache staticCache req (FetchResult.ok r) = ⟨c, cache⟩)
    ∧ (lookupA cache req.url = none → r.status = 200 →
        cacheFirstStrategy cache staticCache req (FetchResult.ok r)
          = ⟨r, setA cache req.url r⟩) := by
  refine ⟨?_, ?_, ?_, ?_⟩
  · intro ho
    simp [fetchRoute, hm, ho]
  · intro ho hg
    simp [fetchRoute, hm, ho, hg, hd]
  · intro c hc
    simp [cacheFirstStrategy, hc]
  · intro hc hst
    simp [cacheFirstStrategy, hc, hst]

/-- Witness for the amended C8: a concrete cross-origin image request on a
cold cache with a 200 network response. -/
theorem C8_image_cache_first_amended_witness :
    (crossOriginImageReq.method = "GET"
      ∧ crossOriginImageReq.destination = "image"
      ∧ crossOriginImageReq.origin ≠ "https://tacoschilis.example"
      ∧ (containsSub crossOriginImageReq.hostname "docs.google.com"
          && containsSub crossOriginImageReq.pathname "/pub") = false
      ∧ lookupA ([] : Cache) crossOriginImageReq.url = none
      ∧ (⟨200, "img"⟩ : Response).status = 200)
    ∧ fetchRoute "https://tacoschilis.example" crossOriginImageReq
        = Routing.cacheFirst CACHE_NAME
    ∧ cacheFirstStrategy [] [] crossOriginImageReq (FetchResult.ok ⟨200, "img"⟩)
        = ⟨⟨200, "img"⟩, setA [] crossOriginImageReq.url ⟨200, "img"⟩⟩ :=
  ⟨by decide,
   (C8_image_cache_first_amended "https://tacoschilis.example" crossOriginImageReq
      [] [] ⟨200, "img"⟩ (by decide) (by decide)).2.1 (by decide) (by decide),
   (C8_image_cache_first_amended "https://tacoschilis.example" crossOriginImageReq
      [] [] ⟨200, "img"⟩ (by decide) (by decide)).2.2.2 (by decide) (by decide)⟩

/-- Claim C9: the CACHE_CSV message handler (sw.js:202-203) computes the
same stripped cache key as the fetch interceptor `handleCSVRequest`
(sw.js:88-90) for the same URL string, so manual prefetch and organic
fetch read and write the same cache entry.  Both split at the literal
`&cacheBust=` and keep the part before it; the only difference in the
source is that the fetch path first round-trips the URL through `new
URL(...).href`, which is the identity on the canonical URL strings this
embedding ranges over (`urlHref`). -/
theorem C9_message_key_matches_fetch_key (u : String) :
    messageCacheKey u = handleCSVcacheKey u := rfl

end TacosChilis
